import Mathlib

/-!
Verification development for the liquid background animation engine of
`src/liquid-bg.js` (class `LiquidBackground`) plus its DOM-ready bootstrap.

The per-tick update (`animate`), particle creation (`createParticles`),
event bindings (`bindEvents`), the grain overlay (`addNoise`) and the
DOMContentLoaded bootstrap are embedded shallowly below.  JavaScript
numbers are modelled as ideal real numbers `ℝ` (the pointer-smoothing
recurrence, whose claims explicitly speak of exact arithmetic, is also
modelled over `ℚ` so that it is executable); `Math.random()` becomes an
explicitly injected stream `ℕ → ℝ` of sample values, consumed at fixed
indices.
-/

namespace LiquidBG

/-- One particle of the field, with exactly the fields pushed by
`createParticles` (source lines 50-62). -/
structure Particle where
  x : ℝ
  y : ℝ
  baseX : ℝ
  baseY : ℝ
  size : ℝ
  speedX : ℝ
  speedY : ℝ
  color : String
  phase : ℝ
  amplitude : ℝ

instance : Inhabited Particle :=
  ⟨⟨0, 0, 0, 0, 0, 0, 0, "", 0, 0⟩⟩

/-- The mutable state of a `LiquidBackground` instance: settings fixed in the
constructor (`particleCount`), the particle list, the mouse record
`{x, y, targetX, targetY}`, the time accumulator, the `isRunning` flag and
the viewport dimensions set by `resize()`. -/
structure Engine where
  particleCount : ℕ
  particles : List Particle
  mouseX : ℝ
  mouseY : ℝ
  targetX : ℝ
  targetY : ℝ
  time : ℝ
  isRunning : Bool
  width : ℝ
  height : ℝ

/-- The fixed five-entry palette (`this.colors`, source lines 21-27). -/
def colors : List String :=
  ["rgba(139, 92, 246, 0.6)",
   "rgba(99, 102, 241, 0.5)",
   "rgba(79, 70, 229, 0.4)",
   "rgba(124, 58, 237, 0.5)",
   "rgba(67, 56, 202, 0.3)"]

/-- Magnitude of the pointer force as a function of the computed distance:
inside the guard `if (dist < maxDist)` the source sets
`force = (maxDist - dist) / maxDist` with `maxDist = 400` (lines 119-123);
outside the guard no force is applied, i.e. the magnitude is `0`. -/
noncomputable def forceMag (dist : ℝ) : ℝ :=
  if dist < 400 then (400 - dist) / 400 else 0

/-- First wrap statement (line 130 / 132):
`if (particle.x < -particle.size) particle.x = this.width + particle.size`. -/
noncomputable def wrapLow (limit size x : ℝ) : ℝ :=
  if x < -size then limit + size else x

/-- Second wrap statement (line 131 / 133):
`if (particle.x > this.width + particle.size) particle.x = -particle.size`,
executed after `wrapLow` on the already-updated value. -/
noncomputable def wrapHigh (limit size x : ℝ) : ℝ :=
  if x > limit + size then -size else x

/-- Per-particle state update of one tick (source lines 108-133): base
drift, then pointer interaction against the already-smoothed mouse position,
then the two sequential wrap statements per axis.  The oscillation offsets
computed on lines 113-115 do not mutate the stored position and are
modelled by `renderedX` / `renderedY` below. -/
noncomputable def updateParticle (mx my w h : ℝ) (p : Particle) : Particle :=
  let x1 := p.x + p.speedX
  let y1 := p.y + p.speedY
  let dx := mx - x1
  let dy := my - y1
  let dist := Real.sqrt (dx * dx + dy * dy)
  let x2 := x1 - dx * forceMag dist * 0.02
  let y2 := y1 - dy * forceMag dist * 0.02
  { p with x := wrapHigh w p.size (wrapLow w p.size x2),
           y := wrapHigh h p.size (wrapLow h p.size y2) }

/-- Rendered x coordinate of a particle: stored position plus the
oscillation offset `Math.sin(this.time + particle.phase) * particle.amplitude`
(lines 113, 137). -/
noncomputable def renderedX (time : ℝ) (p : Particle) : ℝ :=
  p.x + Real.sin (time + p.phase) * p.amplitude

/-- Rendered y coordinate of a particle: stored position plus the
oscillation offset `Math.cos(this.time * 0.8 + particle.phase) * particle.amplitude`
(lines 114, 138). -/
noncomputable def renderedY (time : ℝ) (p : Particle) : ℝ :=
  p.y + Real.cos (time * 0.8 + p.phase) * p.amplitude

/-- One call of `animate()` restricted to its state effects (lines 94-133):
the early return when not running, the time increment, the smoothed mouse
follow, and the per-particle update.  Drawing has no effect on engine
state. -/
noncomputable def tick (e : Engine) : Engine :=
  if e.isRunning then
    { e with
      time := e.time + 0.01,
      mouseX := e.mouseX + (e.targetX - e.mouseX) * 0.05,
      mouseY := e.mouseY + (e.targetY - e.mouseY) * 0.05,
      particles := e.particles.map
        (updateParticle
          (e.mouseX + (e.targetX - e.mouseX) * 0.05)
          (e.mouseY + (e.targetY - e.mouseY) * 0.05)
          e.width e.height) }
  else e

/-- The particle built in iteration `i` of the `createParticles` loop
(lines 50-62), reading ten fresh samples of the injected random stream in
source order: x, y, baseX, baseY, size, speedX, speedY, color index,
phase, amplitude. -/
noncomputable def mkParticle (w h : ℝ) (r : ℕ → ℝ) (i : ℕ) : Particle :=
  { x := r (10 * i) * w,
    y := r (10 * i + 1) * h,
    baseX := r (10 * i + 2) * w,
    baseY := r (10 * i + 3) * h,
    size := r (10 * i + 4) * 150 + 80,
    speedX := (r (10 * i + 5) - 0.5) * 0.5,
    speedY := (r (10 * i + 6) - 0.5) * 0.5,
    color := colors.getD (Int.toNat ⌊r (10 * i + 7) * (colors.length : ℝ)⌋) "",
    phase := r (10 * i + 8) * (2 * Real.pi),
    amplitude := r (10 * i + 9) * 50 + 30 }

/-- `createParticles()` (lines 48-64): discard the current list and push
`count` freshly randomized particles. -/
noncomputable def createParticles (count : ℕ) (w h : ℝ) (r : ℕ → ℝ) : List Particle :=
  (List.range count).map (mkParticle w h r)

/-- External notifications consumed by the engine (`bindEvents`,
lines 67-91): a scheduled animation tick, mouse/touch movement, a viewport
resize (carrying the container's new dimensions and the random samples the
recreation will consume), and a visibility change. -/
inductive Event where
  | tick : Event
  | mouseMove : ℝ → ℝ → Event
  | touchMove : ℝ → ℝ → Event
  | resize : ℝ → ℝ → (ℕ → ℝ) → Event
  | visibility : Bool → Event

/-- Whether an event is a resize notification. -/
def isResizeEv : Event → Bool
  | Event.resize _ _ _ => true
  | _ => false

/-- Whether an event is a visibility-restored notification (the only event
that sets `isRunning` back to `true`). -/
def isResumeEv : Event → Bool
  | Event.visibility hidden => !hidden
  | _ => false

/-- Effect of one external event on the engine state, following the
handlers registered in `bindEvents` (lines 67-91): mouse/touch handlers
overwrite only the raw target; the resize handler re-reads the container
dimensions and recreates the particle list unconditionally; the
visibilitychange handler sets `isRunning` and, when the page became
visible, immediately calls `animate()` (one tick). -/
noncomputable def step (e : Engine) : Event → Engine
  | Event.tick => tick e
  | Event.mouseMove mx my => { e with targetX := mx, targetY := my }
  | Event.touchMove tx ty => { e with targetX := tx, targetY := ty }
  | Event.resize w h r =>
      { e with width := w, height := h,
               particles := createParticles e.particleCount w h r }
  | Event.visibility hidden =>
      if hidden then { e with isRunning := false }
      else tick { e with isRunning := true }

/-- Folding a list of events over the engine state. -/
noncomputable def run (e : Engine) (evs : List Event) : Engine :=
  evs.foldl step e

/-- The first particle of an engine's list (used to state concrete
scenario theorems). -/
def p1 (e : Engine) : Particle :=
  e.particles.headI

/-- The mount container as seen by the engine: only its offset dimensions
matter. -/
structure Container where
  width : ℝ
  height : ℝ

/-- Engine state right after the constructor (lines 7-31): `particleCount`
is 80, the mouse record starts at all zeros, `time` is 0, `isRunning` is
`true`, the dimensions are read from the container by `resize()`, and
`createParticles()` fills the particle list. -/
noncomputable def mkEngine (c : Container) (r : ℕ → ℝ) : Engine :=
  { particleCount := 80,
    particles := createParticles 80 c.width c.height r,
    mouseX := 0, mouseY := 0, targetX := 0, targetY := 0,
    time := 0,
    isRunning := true,
    width := c.width,
    height := c.height }

/-- The DOMContentLoaded bootstrap (lines 184-189): query the mount
container; when it is absent do nothing, otherwise construct the engine.
The `Except` layer records that the handler itself raises no error in
either case. -/
noncomputable def domReady (container : Option Container) (r : ℕ → ℝ) :
    Except String (Option Engine) :=
  match container with
  | none => Except.ok none
  | some c => Except.ok (some (mkEngine c r))

/-- Exact-arithmetic model of one pointer-smoothing update
`this.mouse.x += (this.mouse.targetX - this.mouse.x) * 0.05` (lines 99-101),
with the smoothing constant kept as a parameter `k` (configuration
`smoothingFactor`, reference value 0.05). -/
def smoothStepK (k target s : ℚ) : ℚ :=
  s + (target - s) * k

/-- `n` pointer-smoothing updates against a constant raw target. -/
def smoothIterK (k target : ℚ) (n : ℕ) (s : ℚ) : ℚ :=
  (smoothStepK k target)^[n] s

/-- The smoothing iteration at the source's constant `0.05`. -/
def smoothIter (target : ℚ) (n : ℕ) (s : ℚ) : ℚ :=
  smoothIterK 0.05 target n s

/-- The channel clamp `Math.max(0, Math.min(255, v))` used by `addNoise`
(lines 172-174). -/
def clampChan (v : ℚ) : ℚ :=
  max 0 (min 255 v)

/-- The `addNoise` loop (lines 170-175) from buffer index `j` on: indices
whose offset inside their 16-wide block is 0, 1 or 2 receive the shared
noise sample `(r(block) - 0.5) * 8` of their block, clamped to `[0, 255]`;
all other indices are untouched. -/
def addNoiseFrom (r : ℕ → ℚ) : ℕ → List ℚ → List ℚ
  | _, [] => []
  | j, v :: rest =>
      (if j % 16 < 3 then clampChan (v + (r (j / 16) - 0.5) * 8) else v) ::
        addNoiseFrom r (j + 1) rest

/-- `addNoise()` applied to a pixel buffer (lines 167-180, without the
surface read-back/write-back). -/
def addNoise (r : ℕ → ℚ) (data : List ℚ) : List ℚ :=
  addNoiseFrom r 0 data

/-! ### Concrete states used in scenario theorems and witnesses -/

/-- A concrete particle far out of the box, used to witness the wrap
invariant. -/
def pW3 : Particle :=
  { x := 500, y := -500, baseX := 0, baseY := 0, size := 80,
    speedX := 1, speedY := -1, color := "", phase := 0, amplitude := 40 }

/-- A concrete running engine holding `pW3`. -/
def engW3 : Engine :=
  { particleCount := 1, particles := [pW3],
    mouseX := 0, mouseY := 0, targetX := 0, targetY := 0,
    time := 0, isRunning := true, width := 100, height := 100 }

/-- A particle sitting exactly on the lower wrap boundary, drifting left,
with oscillation phase 0; all field values inside the construction
ranges. -/
def pC2 : Particle :=
  { x := -80, y := 0, baseX := 0, baseY := 0, size := 80,
    speedX := -0.25, speedY := 0, color := "", phase := 0, amplitude := 50 }

/-- A running engine holding `pC2`, with the smoothed pointer resting on
the particle's drift destination and the time accumulator one step before
`pi / 2`. -/
noncomputable def eC2 : Engine :=
  { particleCount := 1, particles := [pC2],
    mouseX := -80.25, mouseY := 0, targetX := -80.25, targetY := 0,
    time := Real.pi / 2 - 0.01, isRunning := true, width := 100, height := 100 }

/-- The single particle of the C1 scenario: position `(0, 0)`, zero base
drift, zero amplitude. -/
def pC1 : Particle :=
  { x := 0, y := 0, baseX := 0, baseY := 0, size := 80,
    speedX := 0, speedY := 0, color := "", phase := 0, amplitude := 0 }

/-- The C1 scenario engine: viewport 200 by 200, raw pointer target
`(1000, 1000)` freshly set (smoothed pointer still at the initial
`(0, 0)`), one particle `pC1`. -/
def engC1 : Engine :=
  { particleCount := 1, particles := [pC1],
    mouseX := 0, mouseY := 0, targetX := 1000, targetY := 1000,
    time := 0, isRunning := true, width := 200, height := 200 }

/-- A freshly constructed engine on a 100 by 100 container (zero random
stream) that has just received a visibility-lost notification. -/
noncomputable def engPause : Engine :=
  step (mkEngine ⟨100, 100⟩ (fun _ => 0)) (Event.visibility true)

/-! ### Helper lemmas -/

/-- The composition of the two wrap statements always lands in
`[-size, limit + size]` when the limit and the size are nonnegative. -/
lemma wrap_mem (limit size x : ℝ) (hl : 0 ≤ limit) (hs : 0 ≤ size) :
    -size ≤ wrapHigh limit size (wrapLow limit size x) ∧
      wrapHigh limit size (wrapLow limit size x) ≤ limit + size := by
  unfold wrapHigh wrapLow
  split_ifs <;> constructor <;> linarith

/-- `updateParticle` only mutates the position fields. -/
lemma updateParticle_size (mx my w h : ℝ) (p : Particle) :
    (updateParticle mx my w h p).size = p.size := rfl

/-- `updateParticle` leaves the amplitude unchanged. -/
lemma updateParticle_amplitude (mx my w h : ℝ) (p : Particle) :
    (updateParticle mx my w h p).amplitude = p.amplitude := rfl

/-- The updated x coordinate is the double wrap of some value. -/
lemma updateParticle_x_eq (mx my w h : ℝ) (p : Particle) :
    ∃ v, (updateParticle mx my w h p).x = wrapHigh w p.size (wrapLow w p.size v) :=
  ⟨_, rfl⟩

/-- The updated y coordinate is the double wrap of some value. -/
lemma updateParticle_y_eq (mx my w h : ℝ) (p : Particle) :
    ∃ v, (updateParticle mx my w h p).y = wrapHigh h p.size (wrapLow h p.size v) :=
  ⟨_, rfl⟩

/-- After one particle update both stored coordinates are inside the
wrap box. -/
lemma updateParticle_mem (mx my w h : ℝ) (p : Particle)
    (hw : 0 ≤ w) (hh : 0 ≤ h) (hs : 0 ≤ p.size) :
    (-p.size ≤ (updateParticle mx my w h p).x ∧
      (updateParticle mx my w h p).x ≤ w + p.size) ∧
    (-p.size ≤ (updateParticle mx my w h p).y ∧
      (updateParticle mx my w h p).y ≤ h + p.size) := by
  obtain ⟨vx, hx⟩ := updateParticle_x_eq mx my w h p
  obtain ⟨vy, hy⟩ := updateParticle_y_eq mx my w h p
  rw [hx, hy]
  exact ⟨wrap_mem w p.size vx hw hs, wrap_mem h p.size vy hh hs⟩

/-- The sine oscillation offset is bounded by the amplitude. -/
lemma osc_bound_sin (θ a : ℝ) (ha : 0 ≤ a) :
    -a ≤ Real.sin θ * a ∧ Real.sin θ * a ≤ a := by
  have h1 := Real.neg_one_le_sin θ
  have h2 := Real.sin_le_one θ
  constructor <;> nlinarith

/-- The cosine oscillation offset is bounded by the amplitude. -/
lemma osc_bound_cos (θ a : ℝ) (ha : 0 ≤ a) :
    -a ≤ Real.cos θ * a ∧ Real.cos θ * a ≤ a := by
  have h1 := Real.neg_one_le_cos θ
  have h2 := Real.cos_le_one θ
  constructor <;> nlinarith

/-- `updateParticle` leaves the phase unchanged. -/
lemma updateParticle_phase (mx my w h : ℝ) (p : Particle) :
    (updateParticle mx my w h p).phase = p.phase := rfl

/-- The head of a nonempty list is one of its members. -/
lemma headI_mem {α : Type} [Inhabited α] (l : List α) (h : l ≠ []) :
    l.headI ∈ l := by
  cases l with
  | nil => exact absurd rfl h
  | cons a t => exact List.mem_cons_self a t

/-- The head of a freshly created particle list is the particle built from
random indices 0 through 9. -/
lemma createParticles_headI (n : ℕ) (w h : ℝ) (r : ℕ → ℝ) (hn : n ≠ 0) :
    (createParticles n w h r).headI = mkParticle w h r 0 := by
  cases n with
  | zero => exact absurd rfl hn
  | succ m =>
      rw [createParticles, List.range_succ_eq_map, List.map_cons]
      rfl

/-- A paused engine ignores a tick entirely. -/
lemma tick_paused (e : Engine) (h : e.isRunning = false) : tick e = e := by
  simp [tick, h]

/-- A paused engine keeps its particle list and stays paused across any
event trace free of resize and visibility-restored notifications. -/
lemma run_paused (evs : List Event) : ∀ e : Engine, e.isRunning = false →
    (∀ ev ∈ evs, isResizeEv ev = false ∧ isResumeEv ev = false) →
    (run e evs).particles = e.particles ∧ (run e evs).isRunning = false := by
  induction evs with
  | nil => intro e hp _; exact ⟨rfl, hp⟩
  | cons ev rest ih =>
      intro e hp hevs
      obtain ⟨hr, hs⟩ := hevs ev (List.mem_cons_self ev rest)
      have hstep : (step e ev).particles = e.particles ∧
          (step e ev).isRunning = false := by
        cases ev with
        | tick => rw [step, tick_paused e hp]; exact ⟨rfl, hp⟩
        | mouseMove a b => exact ⟨rfl, hp⟩
        | touchMove a b => exact ⟨rfl, hp⟩
        | resize a b c => simp [isResizeEv] at hr
        | visibility hidden =>
            cases hidden with
            | true => exact ⟨rfl, rfl⟩
            | false => simp [isResumeEv] at hs
      have h2 := ih (step e ev) hstep.2
        (fun x hx => hevs x (List.mem_cons_of_mem ev hx))
      rw [run, List.foldl_cons]
      rw [run] at h2
      exact ⟨h2.1.trans hstep.1, h2.2⟩

/-- In the C1 scenario, one tick moves both stored coordinates of the
particle strictly below 0: the pointer interaction `position -= (dx, dy) *
force * 0.02` pushes the particle away from the smoothed pointer
`(50, 50)`. -/
lemma engC1_tick_neg :
    (p1 (tick engC1)).x < 0 ∧ (p1 (tick engC1)).y < 0 := by
  have hs0 : 0 ≤ Real.sqrt 5000 := Real.sqrt_nonneg _
  have hslt : Real.sqrt 5000 < 400 := by
    have h : (5000:ℝ) < 400 ^ 2 := by norm_num
    exact (Real.sqrt_lt' (by norm_num)).mpr h
  have hhead : p1 (tick engC1) = updateParticle 50 50 200 200 pC1 := by
    simp only [p1, tick, engC1, if_true, List.map, List.headI]
    norm_num
  have harg : (50 - ((0:ℝ) + 0)) * (50 - (0 + 0)) + (50 - (0 + 0)) * (50 - (0 + 0))
      = 5000 := by norm_num
  have hval : wrapHigh 200 80 (wrapLow 200 80
      ((0 + 0) - (50 - (0 + 0)) * forceMag (Real.sqrt 5000) * 0.02)) < 0 := by
    rw [forceMag, if_pos hslt]
    have hE : ((0:ℝ) + 0) - (50 - (0 + 0)) * ((400 - Real.sqrt 5000) / 400) * 0.02
        = -((400 - Real.sqrt 5000) / 400) := by ring
    rw [hE]
    have h1 : (0:ℝ) < (400 - Real.sqrt 5000) / 400 :=
      div_pos (by linarith) (by norm_num)
    have h2 : (400 - Real.sqrt 5000) / 400 ≤ 1 := by
      rw [div_le_one (by norm_num)]
      linarith
    rw [wrapLow, if_neg (by push_neg; linarith)]
    rw [wrapHigh, if_neg (by push_neg; linarith)]
    linarith
  have hx : (updateParticle 50 50 200 200 pC1).x = wrapHigh 200 80 (wrapLow 200 80
      ((0 + 0) - (50 - (0 + 0)) * forceMag (Real.sqrt
        ((50 - ((0:ℝ) + 0)) * (50 - (0 + 0)) + (50 - (0 + 0)) * (50 - (0 + 0))))
        * 0.02)) := rfl
  have hy : (updateParticle 50 50 200 200 pC1).y = wrapHigh 200 80 (wrapLow 200 80
      ((0 + 0) - (50 - (0 + 0)) * forceMag (Real.sqrt
        ((50 - ((0:ℝ) + 0)) * (50 - (0 + 0)) + (50 - (0 + 0)) * (50 - (0 + 0))))
        * 0.02)) := rfl
  rw [hhead, hx, hy, harg]
  exact ⟨hval, hval⟩

/-- Closed form of the smoothing recurrence: the residual to the target
shrinks by the factor `1 - k` each tick. -/
lemma smoothIterK_closed (k t : ℚ) (n : ℕ) (s : ℚ) :
    t - smoothIterK k t n s = (1 - k) ^ n * (t - s) := by
  induction n generalizing s with
  | zero => simp [smoothIterK]
  | succ m ih =>
      have h1 : smoothIterK k t (m + 1) s = smoothIterK k t m (smoothStepK k t s) := by
        simp [smoothIterK, Function.iterate_succ_apply]
      rw [h1, ih (smoothStepK k t s)]
      unfold smoothStepK
      ring

/-- Distance form of the closed form at the source constant `k = 0.05`. -/
lemma smoothIter_dist (t s : ℚ) (n : ℕ) :
    |smoothIter t n s - t| = (19 / 20) ^ n * |s - t| := by
  have h : t - smoothIter t n s = (19 / 20) ^ n * (t - s) := by
    have := smoothIterK_closed 0.05 t n s
    rw [smoothIter]
    rw [this]
    norm_num
  have h2 : smoothIter t n s - t = (19 / 20) ^ n * (s - t) := by linarith
  rw [h2, abs_mul, abs_pow, abs_of_pos (show (0:ℚ) < 19 / 20 by norm_num)]

/-- The noise loop preserves the buffer length. -/
lemma addNoiseFrom_length (r : ℕ → ℚ) (j : ℕ) (data : List ℚ) :
    (addNoiseFrom r j data).length = data.length := by
  induction data generalizing j with
  | nil => rfl
  | cons v rest ih => simp [addNoiseFrom, ih]

/-- Indices whose offset inside their 16-wide block is at least 3 are not
touched by the noise loop. -/
lemma addNoiseFrom_getD_untouched (r : ℕ → ℚ) (data : List ℚ) :
    ∀ j i : ℕ, 3 ≤ (j + i) % 16 →
      (addNoiseFrom r j data).getD i 0 = data.getD i 0 := by
  induction data with
  | nil => intro j i _; rfl
  | cons v rest ih =>
      intro j i hi
      cases i with
      | zero =>
          have hj : ¬ j % 16 < 3 := by omega
          simp [addNoiseFrom, hj]
      | succ m =>
          have hm : 3 ≤ (j + 1 + m) % 16 := by omega
          simp only [addNoiseFrom, List.getD_cons_succ]
          exact ih (j + 1) m hm

/-- Every element of the noise loop's output stays in `[0, 255]` when every
input element does. -/
lemma addNoiseFrom_bounds (r : ℕ → ℚ) (data : List ℚ)
    (hd : ∀ v ∈ data, 0 ≤ v ∧ v ≤ 255) :
    ∀ j : ℕ, ∀ w ∈ addNoiseFrom r j data, 0 ≤ w ∧ w ≤ 255 := by
  induction data with
  | nil => intro j w hw; simp [addNoiseFrom] at hw
  | cons v rest ih =>
      intro j w hw
      rw [addNoiseFrom, List.mem_cons] at hw
      rcases hw with hw | hw
      · subst hw
        split
        · unfold clampChan
          constructor
          · exact le_max_left 0 _
          · exact max_le (by norm_num) (min_le_left 255 _)
        · exact hd v (List.mem_cons_self v rest)
      · exact ih (fun u hu => hd u (List.mem_cons_of_mem v hu)) (j + 1) w hw

/-- Elements of `List.replicate` read through `getD` with the same default. -/
lemma replicate_getD (n i : ℕ) (c : ℚ) :
    (List.replicate n c).getD i c = c := by
  induction n generalizing i with
  | zero => rfl
  | succ m ih =>
      cases i with
      | zero => rfl
      | succ j => simp [List.replicate, ih j]

/-! ### Claims -/

/-- C1 counterexample: in the specified scenario (one particle at `(0,0)`,
zero drift and amplitude, viewport 200 by 200, raw target `(1000, 1000)`
set at tick 0) the particle does NOT move strictly toward the target after
one tick: because the source subtracts the force term
(`particle.x -= dx * force * 0.02` with `dx = mouse - particle`), both
position deltas are negative, not positive. -/
theorem pointer_scenario_not_toward :
    ¬ (0 < (p1 (tick engC1)).x - (p1 engC1).x ∧
        0 < (p1 (tick engC1)).y - (p1 engC1).y) := by
  have h := engC1_tick_neg
  intro hc
  have hx0 : (p1 engC1).x = 0 := rfl
  rw [hx0] at hc
  linarith [h.1, hc.1]

/-- C1 amended: in the specified scenario, after one tick the particle's
position has moved strictly AWAY from `(1000, 1000)`: both its x delta and
its y delta are strictly negative (no wrap fires, the displacement being
smaller than one unit). -/
theorem pointer_scenario_moves_away :
    (p1 (tick engC1)).x - (p1 engC1).x < 0 ∧
    (p1 (tick engC1)).y - (p1 engC1).y < 0 := by
  have h := engC1_tick_neg
  have hx0 : (p1 engC1).x = 0 := rfl
  have hy0 : (p1 engC1).y = 0 := rfl
  rw [hx0, hy0]
  constructor <;> linarith [h.1, h.2]

/-- C2 counterexample: in the state `eC2` both the stored and the rendered
x coordinate respect the claimed `[-size, width + size]` bound, yet after
one tick (the drift pushes the particle below `-size`, the wrap resets it
to `width + size`, and the sine reaches 1) the rendered x coordinate
exceeds `width + size` — the claimed bound fails by up to the
amplitude. -/
theorem rendered_escapes_size_margin :
    (-(p1 eC2).size ≤ (p1 eC2).x ∧ (p1 eC2).x ≤ eC2.width + (p1 eC2).size) ∧
    (-(p1 eC2).size ≤ renderedX eC2.time (p1 eC2) ∧
      renderedX eC2.time (p1 eC2) ≤ eC2.width + (p1 eC2).size) ∧
    eC2.width + (p1 (tick eC2)).size < renderedX (tick eC2).time (p1 (tick eC2)) := by
  have hpi := Real.pi_gt_three
  have hsin0 : 0 ≤ Real.sin (Real.pi / 2 - 0.01 + 0) :=
    Real.sin_nonneg_of_nonneg_of_le_pi (by linarith) (by linarith)
  have hsin1 : Real.sin (Real.pi / 2 - 0.01 + 0) ≤ 1 := Real.sin_le_one _
  refine ⟨?_, ?_, ?_⟩
  · simp only [p1, eC2, List.headI, pC2]
    norm_num
  · simp only [p1, eC2, List.headI, renderedX, pC2]
    constructor <;> nlinarith
  · have hhead : p1 (tick eC2) =
        updateParticle (-80.25) 0 100 100 pC2 := by
      simp only [p1, tick, eC2, if_true, List.map, List.headI]
      norm_num
    have htime : (tick eC2).time = Real.pi / 2 := by
      simp only [tick, eC2, if_true]
      ring
    have hx : (updateParticle (-80.25) 0 100 100 pC2).x = 180 := by
      simp only [updateParticle, pC2]
      norm_num [Real.sqrt_zero, forceMag, wrapLow, wrapHigh]
    rw [hhead, htime, renderedX, hx, updateParticle_phase, updateParticle_size,
        updateParticle_amplitude]
    simp only [pC2]
    rw [show Real.pi / 2 + 0 = Real.pi / 2 by ring, Real.sin_pi_div_two]
    simp only [eC2]
    norm_num

/-- C2 amended: after any tick of a running engine every rendered position
component lies within `[-(size + amplitude), dimension + (size + amplitude)]`
— the wrap margin widened by the oscillation amplitude, which the stored
position's `[-size, dimension + size]` box does not cover. -/
theorem rendered_within_size_amplitude_margin (e : Engine)
    (hrun : e.isRunning = true) (hw : 0 ≤ e.width) (hh : 0 ≤ e.height)
    (hq : ∀ q ∈ e.particles, 0 ≤ q.size ∧ 0 ≤ q.amplitude) :
    ∀ p ∈ (tick e).particles,
      -(p.size + p.amplitude) ≤ renderedX (tick e).time p ∧
      renderedX (tick e).time p ≤ e.width + (p.size + p.amplitude) ∧
      -(p.size + p.amplitude) ≤ renderedY (tick e).time p ∧
      renderedY (tick e).time p ≤ e.height + (p.size + p.amplitude) := by
  intro p hp
  simp only [tick, hrun, if_true] at hp
  rw [List.mem_map] at hp
  obtain ⟨q, hq', rfl⟩ := hp
  obtain ⟨hqs, hqa⟩ := hq q hq'
  have hm := updateParticle_mem
    (e.mouseX + (e.targetX - e.mouseX) * 0.05)
    (e.mouseY + (e.targetY - e.mouseY) * 0.05)
    e.width e.height q hw hh hqs
  simp only [renderedX, renderedY, updateParticle_size, updateParticle_amplitude,
    updateParticle_phase]
  have hsx := osc_bound_sin ((tick e).time + q.phase) q.amplitude hqa
  have hsy := osc_bound_cos ((tick e).time * 0.8 + q.phase) q.amplitude hqa
  refine ⟨?_, ?_, ?_, ?_⟩
  · linarith [hm.1.1, hsx.1]
  · linarith [hm.1.2, hsx.2]
  · linarith [hm.2.1, hsy.1]
  · linarith [hm.2.2, hsy.2]

/-- C2 amended witness: the widened rendered bound instantiated on the
concrete engine `engW3` after one tick. -/
theorem rendered_within_margin_witness :
    -((p1 (tick engW3)).size + (p1 (tick engW3)).amplitude) ≤
        renderedX (tick engW3).time (p1 (tick engW3)) ∧
    renderedX (tick engW3).time (p1 (tick engW3)) ≤
        engW3.width + ((p1 (tick engW3)).size + (p1 (tick engW3)).amplitude) ∧
    -((p1 (tick engW3)).size + (p1 (tick engW3)).amplitude) ≤
        renderedY (tick engW3).time (p1 (tick engW3)) ∧
    renderedY (tick engW3).time (p1 (tick engW3)) ≤
        engW3.height + ((p1 (tick engW3)).size + (p1 (tick engW3)).amplitude) := by
  apply rendered_within_size_amplitude_margin engW3 rfl
    (by norm_num [engW3]) (by norm_num [engW3])
    (by intro q hq
        simp only [engW3, List.mem_singleton] at hq
        subst hq
        norm_num [pW3])
  apply headI_mem
  simp [tick, engW3]

/-- C3: each out-of-range coordinate is reset exactly to the opposite
boundary by the two sequential wrap statements, and after the wrap step of
any single tick every stored particle position lies in
`[-size, dimension + size]`, for any pre-tick position, drift and pointer
state. -/
theorem wrap_reentry :
    (∀ limit size x : ℝ, 0 ≤ limit → 0 ≤ size →
      (x < -size → wrapHigh limit size (wrapLow limit size x) = limit + size) ∧
      (limit + size < x → wrapHigh limit size (wrapLow limit size x) = -size) ∧
      -size ≤ wrapHigh limit size (wrapLow limit size x) ∧
      wrapHigh limit size (wrapLow limit size x) ≤ limit + size) ∧
    (∀ e : Engine, e.isRunning = true → 0 ≤ e.width → 0 ≤ e.height →
      (∀ q ∈ e.particles, 0 ≤ q.size) →
      ∀ p ∈ (tick e).particles,
        -p.size ≤ p.x ∧ p.x ≤ e.width + p.size ∧
        -p.size ≤ p.y ∧ p.y ≤ e.height + p.size) := by
  constructor
  · intro limit size x hl hs
    refine ⟨?_, ?_, ?_, ?_⟩ <;>
      · unfold wrapHigh wrapLow
        split_ifs <;> intros <;> linarith
  · intro e hrun hw hh hq p hp
    simp only [tick, hrun, if_true] at hp
    rw [List.mem_map] at hp
    obtain ⟨q, hq', rfl⟩ := hp
    simp only [updateParticle_size]
    have hm := updateParticle_mem
      (e.mouseX + (e.targetX - e.mouseX) * 0.05)
      (e.mouseY + (e.targetY - e.mouseY) * 0.05)
      e.width e.height q hw hh (hq q hq')
    exact ⟨hm.1.1, hm.1.2, hm.2.1, hm.2.2⟩

/-- C3 witness: a coordinate below `-size` wraps exactly to `limit + size`,
and the stored position of the concrete engine's particle is inside the
box after one tick. -/
theorem wrap_reentry_witness :
    (wrapHigh 100 80 (wrapLow 100 80 (-200)) = 100 + 80) ∧
    (-(p1 (tick engW3)).size ≤ (p1 (tick engW3)).x ∧
      (p1 (tick engW3)).x ≤ engW3.width + (p1 (tick engW3)).size ∧
      -(p1 (tick engW3)).size ≤ (p1 (tick engW3)).y ∧
      (p1 (tick engW3)).y ≤ engW3.height + (p1 (tick engW3)).size) := by
  constructor
  · exact (wrap_reentry.1 100 80 (-200) (by norm_num) (by norm_num)).1 (by norm_num)
  · apply wrap_reentry.2 engW3 rfl (by norm_num [engW3]) (by norm_num [engW3])
      (by intro q hq
          simp only [engW3, List.mem_singleton] at hq
          subst hq
          norm_num [pW3])
    apply headI_mem
    simp [tick, engW3]

/-- C4: the pointer force magnitude is exactly zero for every distance at
or beyond the influence radius 400; below the radius it equals
`(400 - dist) / 400`, is strictly positive, strictly increases as the
distance decreases, and reaches 1 at distance 0. -/
theorem forceMag_spec :
    (∀ d : ℝ, 400 ≤ d → forceMag d = 0) ∧
    (∀ d : ℝ, d < 400 → forceMag d = (400 - d) / 400 ∧ 0 < forceMag d) ∧
    (∀ d1 d2 : ℝ, d1 < d2 → d2 < 400 → forceMag d2 < forceMag d1) ∧
    forceMag 0 = 1 := by
  refine ⟨?_, ?_, ?_, ?_⟩
  · intro d hd
    unfold forceMag
    rw [if_neg (by linarith)]
  · intro d hd
    unfold forceMag
    rw [if_pos hd]
    constructor
    · rfl
    · exact div_pos (by linarith) (by norm_num)
  · intro d1 d2 h12 h2
    unfold forceMag
    rw [if_pos h2, if_pos (by linarith)]
    have h400 : (0:ℝ) < 400 := by norm_num
    rw [div_lt_div_iff_of_pos_right h400]
    linarith
  · unfold forceMag
    norm_num

/-- C4 witness: the force specification evaluated at concrete distances. -/
theorem forceMag_spec_witness :
    forceMag 500 = 0 ∧ 0 < forceMag 100 ∧ forceMag 200 < forceMag 100 ∧
      forceMag 0 = 1 :=
  ⟨forceMag_spec.1 500 (by norm_num),
   (forceMag_spec.2.1 100 (by norm_num)).2,
   forceMag_spec.2.2.1 100 200 (by norm_num) (by norm_num),
   forceMag_spec.2.2.2⟩

/-- C5: for a smoothing constant `k ∈ (0, 1)` and a constant raw target, the
per-tick update never overshoots (the sign of `target - smoothed` never
flips), and a smoothed value that starts different from the target never
exactly equals it after any finite number of ticks, over exact
arithmetic. -/
theorem smoothing_no_overshoot (k t s : ℚ) (h0 : 0 < k) (h1 : k < 1) (n : ℕ) :
    (0 < t - s → 0 < t - smoothIterK k t n s) ∧
    (t - s < 0 → t - smoothIterK k t n s < 0) ∧
    (s ≠ t → smoothIterK k t n s ≠ t) := by
  have hk : (0:ℚ) < 1 - k := by linarith
  have hp : (0:ℚ) < (1 - k) ^ n := pow_pos hk n
  have hc := smoothIterK_closed k t n s
  refine ⟨?_, ?_, ?_⟩
  · intro hpos
    rw [hc] at *
    exact mul_pos hp hpos
  · intro hneg
    rw [hc] at *
    exact mul_neg_of_pos_of_neg hp hneg
  · intro hne heq
    have hz : t - smoothIterK k t n s = 0 := by rw [heq]; ring
    rw [hc] at hz
    rcases mul_eq_zero.mp hz with hz1 | hz2
    · exact absurd hz1 (ne_of_gt hp)
    · exact hne (by linarith)

/-- C5 witness: the no-overshoot property at `k = 1/20`, target 1, start 0,
after three ticks. -/
theorem smoothing_no_overshoot_witness :
    (0 < (1:ℚ) - 0 → 0 < 1 - smoothIterK (1/20) 1 3 0) ∧
    ((1:ℚ) - 0 < 0 → 1 - smoothIterK (1/20) 1 3 0 < 0) ∧
    ((0:ℚ) ≠ 1 → smoothIterK (1/20) 1 3 0 ≠ 1) :=
  smoothing_no_overshoot (1/20) 1 0 (by norm_num) (by norm_num) 3

/-- C6 counterexample: with `k = 0.05`, target 1 and start 0, after 200
exact-arithmetic ticks the residual is `(19/20)^200`, which is still larger
than `1e-6` times the initial distance 1 — the claimed 200-tick bound
fails. -/
theorem smoothing_not_small_by_200 :
    ¬ (|smoothIter 1 200 0 - 1| < 1 / 1000000 * |(0:ℚ) - 1|) := by
  rw [smoothIter_dist]
  push_neg
  norm_num

/-- C6 amended: with `k = 0.05` and a constant raw target whose initial
distance is nonzero, `|smoothed - target|` strictly decreases on every
tick, and within at most 270 ticks (rather than 200) it is below `1e-6`
times the initial distance. -/
theorem smoothing_decreases_and_small_by_270 (t s : ℚ) (h : s ≠ t) (n : ℕ) :
    |smoothIter t (n + 1) s - t| < |smoothIter t n s - t| ∧
    |smoothIter t 270 s - t| < 1 / 1000000 * |s - t| := by
  have hd : 0 < |s - t| := abs_pos.mpr (sub_ne_zero.mpr h)
  constructor
  · rw [smoothIter_dist, smoothIter_dist, pow_succ]
    have hp : (0:ℚ) < (19 / 20) ^ n := by positivity
    nlinarith
  · rw [smoothIter_dist]
    have hb : ((19 : ℚ) / 20) ^ 270 < 1 / 1000000 := by norm_num
    exact (mul_lt_mul_of_pos_right hb hd)

/-- C6 amended witness: the strict decrease and the 270-tick bound at
target 1, start 0, first tick. -/
theorem smoothing_decreases_witness :
    |smoothIter 1 (0 + 1) 0 - 1| < |smoothIter 1 0 0 - 1| ∧
    |smoothIter 1 270 0 - 1| < 1 / 1000000 * |(0:ℚ) - 1| :=
  smoothing_decreases_and_small_by_270 1 0 (by norm_num) 0

/-- C7: construction creates exactly `particleCount = 80` particles;
`createParticles` always produces exactly the configured count; a tick
never changes the particle count; and a resize-triggered recreation
replaces the list with exactly `particleCount` freshly created particles,
retaining none of the previous list. -/
theorem particle_count_invariant (e : Engine) (c : Container) (w h : ℝ)
    (r g g2 : ℕ → ℝ) :
    (mkEngine c g2).particleCount = 80 ∧
    (mkEngine c g2).particles.length = 80 ∧
    (createParticles e.particleCount e.width e.height r).length = e.particleCount ∧
    (tick e).particles.length = e.particles.length ∧
    (step e (Event.resize w h g)).particles = createParticles e.particleCount w h g ∧
    (step e (Event.resize w h g)).particles.length = e.particleCount := by
  refine ⟨rfl, ?_, ?_, ?_, rfl, ?_⟩
  · simp [mkEngine, createParticles]
  · simp [createParticles]
  · unfold tick
    by_cases hr : e.isRunning <;> simp [hr]
  · simp [step, createParticles]

/-- C8 counterexample: `engPause` is paused and receives a resize
notification — an event that is not a visibility-restored notification —
yet its first particle's x position changes (the resize handler recreates
the particle field unconditionally, paused or not).  So particle state is
not always unchanged between pause and resume. -/
theorem paused_resize_moves_particle :
    engPause.isRunning = false ∧
    isResumeEv (Event.resize 200 100 (fun _ => 1/2)) = false ∧
    (p1 (step engPause (Event.resize 200 100 (fun _ => 1/2)))).x ≠
      (p1 engPause).x := by
  refine ⟨rfl, rfl, ?_⟩
  have h1 : (p1 engPause).x = 0 := by
    have h : p1 engPause = mkParticle 100 100 (fun _ => (0:ℝ)) 0 := by
      show (createParticles 80 100 100 (fun _ => (0:ℝ))).headI = _
      exact createParticles_headI 80 100 100 _ (by norm_num)
    rw [h, mkParticle]
    norm_num
  have h2 : (p1 (step engPause (Event.resize 200 100 (fun _ => 1/2)))).x = 100 := by
    have h : p1 (step engPause (Event.resize 200 100 (fun _ => (1:ℝ)/2))) =
        mkParticle 200 100 (fun _ => (1:ℝ)/2) 0 := by
      show (createParticles 80 200 100 (fun _ => (1:ℝ)/2)).headI = _
      exact createParticles_headI 80 200 100 _ (by norm_num)
    rw [h, mkParticle]
    norm_num
  rw [h1, h2]
  norm_num

/-- C8 amended: once the engine is paused by a visibility-lost
notification, no tick body executes (`tick` is the identity) and the
particle state is exactly unchanged across any further events, until a
visibility-restored notification — provided no resize notification occurs
in between (a resize recreates the particle field even while paused). -/
theorem paused_no_tick_no_motion (e : Engine) (evs : List Event)
    (hp : e.isRunning = false)
    (hevs : ∀ ev ∈ evs, isResizeEv ev = false ∧ isResumeEv ev = false) :
    tick e = e ∧ (run e evs).particles = e.particles ∧
      (run e evs).isRunning = false := by
  obtain ⟨h1, h2⟩ := run_paused evs e hp hevs
  exact ⟨tick_paused e hp, h1, h2⟩

/-- C8 amended witness: the paused engine `engPause` is unchanged across a
tick, a mouse move and a redundant visibility-lost notification. -/
theorem paused_no_motion_witness :
    tick engPause = engPause ∧
    (run engPause
      [Event.tick, Event.mouseMove 3 4, Event.visibility true]).particles =
        engPause.particles ∧
    (run engPause
      [Event.tick, Event.mouseMove 3 4, Event.visibility true]).isRunning =
        false :=
  paused_no_tick_no_motion engPause
    [Event.tick, Event.mouseMove 3 4, Event.visibility true] rfl
    (by intro ev hev
        fin_cases hev <;> exact ⟨rfl, rfl⟩)

/-- C9: applying the grain overlay to an all-zero pixel buffer leaves every
channel in `[0, 255]`, and every channel at an index the sparse sampling
does not touch (offset at least 3 inside its 16-wide block) stays exactly
0. -/
theorem addNoise_zero_buffer (r : ℕ → ℚ) (n i : ℕ) (hi : i < n) :
    (0 ≤ (addNoise r (List.replicate n 0)).getD i 0 ∧
      (addNoise r (List.replicate n 0)).getD i 0 ≤ 255) ∧
    (3 ≤ i % 16 → (addNoise r (List.replicate n 0)).getD i 0 = 0) := by
  constructor
  · have hlen : i < (addNoise r (List.replicate n 0)).length := by
      rw [addNoise, addNoiseFrom_length, List.length_replicate]
      exact hi
    rw [List.getD_eq_getElem _ _ hlen]
    exact addNoiseFrom_bounds r (List.replicate n 0)
      (by intro v hv; rw [List.eq_of_mem_replicate hv]; norm_num) 0 _
      (List.getElem_mem hlen)
  · intro h3
    rw [addNoise, addNoiseFrom_getD_untouched r _ 0 i (by omega)]
    exact replicate_getD n i 0

/-- C9 witness: the grain overlay on a 20-channel all-zero buffer at the
untouched index 5, with a constant random stream. -/
theorem addNoise_zero_buffer_witness :
    (0 ≤ (addNoise (fun _ => 1/2) (List.replicate 20 0)).getD 5 0 ∧
      (addNoise (fun _ => 1/2) (List.replicate 20 0)).getD 5 0 ≤ 255) ∧
    (3 ≤ 5 % 16 → (addNoise (fun _ => 1/2) (List.replicate 20 0)).getD 5 0 = 0) :=
  addNoise_zero_buffer (fun _ => 1/2) 20 5 (by norm_num)

/-- C10: when the mount container is absent, the DOM-ready bootstrap is a
no-op that constructs nothing and raises no error. -/
theorem absent_container_noop (r : ℕ → ℝ) :
    domReady none r = Except.ok none := rfl

end LiquidBG
